import Mathlib

/-
Verification of the AST elaboration/simplification core (`frontends/ast/simplify.cc`)
against its specification. The C++ source is shallowly embedded: each rewrite step
of `AstNode::simplify` and its helpers (`meminfo`, `mem2reg_as_needed_pass1`,
`eval_const_function`) that the properties below concern is transcribed as a pure
Lean function over the data it reads and writes; fatal `log_error` calls become
`Except.error` results; machine `int` values are modelled as `Int`.
-/

namespace YosysAst

/-- Four-valued logic states of the RTLIL constant type: `0`, `1`, `x`, `z`
(`RTLIL::State::S0/S1/Sx/Sz`). Constant bit vectors are LSB-first lists, as in
`RTLIL::Const::bits`. -/
inductive VState where
  | S0
  | S1
  | Sx
  | Sz
  deriving DecidableEq

/-- A constant AST node's payload: its bit vector (LSB first) and its `is_signed`
flag. -/
structure AConst where
  bits : List VState
  signedFlag : Bool
  deriving DecidableEq

/- ------------------------------------------------------------------ -/
/- mem2reg decision (stage 0 of `AstNode::simplify`, lines 64-139)    -/
/- ------------------------------------------------------------------ -/

/-- The per-memory flags accumulated in `mem2reg_candidates` by
`AstNode::mem2reg_as_needed_pass1`: one Boolean per `MEM2REG_FL_*` bit of the
`uint32_t` bitmask (the mask constants live in `ast.h`; a mask with distinct bits
is isomorphic to this record). -/
structure Mem2RegFlags where
  forced : Bool
  set_init : Bool
  set_else : Bool
  set_async : Bool
  eq2 : Bool
  cmplx_lhs : Bool
  deriving DecidableEq

/-- The per-memory demotion decision made at stage 0 (`simplify.cc` lines 78-97):
the `\nomem2reg` attribute short-circuits with `continue`, then the flag tests fall
through to `silent_activate` (FORCED) or `verbose_activate` (the other triggers),
both of which insert the memory into `mem2reg_set`. -/
def mem2reg_decision (nomem2reg : Bool) (f : Mem2RegFlags) : Bool :=
  if nomem2reg then false
  else if f.forced then true
  else if f.eq2 then true
  else if f.set_async then true
  else if f.set_init && f.set_else then true
  else if f.cmplx_lhs then true
  else false

/-- A mem2reg candidate entry: the memory (identified by name), its `\nomem2reg`
attribute, and the analysis flags `mem2reg_as_needed_pass1` accumulated for it. -/
structure MemCandidate where
  memName : String
  nomem2reg : Bool
  flags : Mem2RegFlags
  deriving DecidableEq

/-- The `mem2reg_set` built at stage 0: the whole analysis block is gated on
`!flag_nomem2reg && !get_bool_attribute("\nomem2reg")` on the module
(`simplify.cc` line 64); inside, each candidate is kept iff `mem2reg_decision`
activates it. -/
def stage0_mem2reg_set (flag_nomem2reg : Bool) (mod_nomem2reg : Bool)
    (cands : List MemCandidate) : List MemCandidate :=
  if !flag_nomem2reg && !mod_nomem2reg then
    cands.filter (fun c => mem2reg_decision c.nomem2reg c.flags)
  else []

/- ------------------------------------------------------------------ -/
/- `AstNode::meminfo` (lines 2059-2073)                               -/
/- ------------------------------------------------------------------ -/

/-- The folded bounds of a range node (`range_left`, `range_right` once
`range_valid`). -/
structure RangeVal where
  range_left : Int
  range_right : Int
  deriving DecidableEq

/-- The `addr_bits` loop of `AstNode::meminfo`:
`addr_bits = 1; while ((1 << addr_bits) < mem_size) addr_bits++;`. -/
def addr_bits_loop (mem_size : Int) (k : Nat) : Nat :=
  if h : (2 : Int) ^ k < mem_size then addr_bits_loop mem_size (k + 1) else k
  termination_by (mem_size - 2 ^ k).toNat
  decreasing_by
    have h1 : (0 : Int) < 2 ^ k := pow_pos (by norm_num) k
    have h2 : (2 : Int) ^ (k + 1) = 2 ^ k * 2 := pow_succ 2 k
    omega

/-- `AstNode::meminfo` (lines 2059-2073): memory word width, memory size and
address width from the memory's two range children; `mem_size` is computed as
`l - r`, negated if negative, plus `min l r + 1`. Returns
`(mem_width, mem_size, addr_bits)`. -/
def meminfo (r0 r1 : RangeVal) : Int × Int × Nat :=
  let mem_width := r0.range_left - r0.range_right + 1
  let ms0 := r1.range_left - r1.range_right
  let ms1 := if ms0 < 0 then ms0 * (-1) else ms0
  let mem_size := ms1 + min r1.range_left r1.range_right + 1
  (mem_width, mem_size, addr_bits_loop mem_size 1)

/-- The registers synthesized for a demoted memory at stage 0 (lines 115-129):
one `AST_WIRE` named `<mem>[<i>]` with range `[mem_width-1:0]` for each
`i < mem_size`. -/
def mem2reg_registers (memName : String) (r0 r1 : RangeVal) :
    List (String × RangeVal) :=
  let mi := meminfo r0 r1
  (List.range mi.2.1.toNat).map (fun i =>
    (memName ++ "[" ++ toString i ++ "]", ⟨mi.1 - 1, 0⟩))

/- ------------------------------------------------------------------ -/
/- Range annotation (lines 503-529)                                   -/
/- ------------------------------------------------------------------ -/

/-- A range child after child simplification: either folded to an `AST_CONSTANT`
(carrying its `integer` value, modelled signed) or still non-constant. -/
inductive FoldedChild where
  | const (integer : Int)
  | nonconst
  deriving DecidableEq

/-- The `range_valid`/`range_left`/`range_right` annotation of a node. -/
structure RangeAnnot where
  range_valid : Bool
  range_left : Int
  range_right : Int
  deriving DecidableEq

/-- The constant-range annotation of an `AST_RANGE` node before the swap
normalization (`simplify.cc` lines 505-521): start from
`range_valid=false, range_left=-1, range_right=0`; a constant first child sets
`range_valid` and `range_left` (and `range_right` too when it is the only child);
a second child sets `range_right` if constant and clears `range_valid` otherwise.
The code asserts `children.size() >= 1`, hence the first child is a separate
argument. -/
def range_annotate_raw (c0 : FoldedChild) (rest : List FoldedChild) : RangeAnnot :=
  let a0 : RangeAnnot := { range_valid := false, range_left := -1, range_right := 0 }
  let a1 :=
    match c0 with
    | .const v =>
        { a0 with range_valid := true, range_left := v,
                  range_right := if rest.isEmpty then v else a0.range_right }
    | .nonconst => a0
  match rest with
  | [] => a1
  | c1 :: _ =>
      match c1 with
      | .const v => { a1 with range_right := v }
      | .nonconst => { a1 with range_valid := false }

/-- Full `AST_RANGE` annotation (lines 503-529): the raw annotation followed by
the swap normalization
`if (range_valid && range_left >= 0 && range_right > range_left) swap`. -/
def range_annotate (c0 : FoldedChild) (rest : List FoldedChild) : RangeAnnot :=
  let a := range_annotate_raw c0 rest
  if a.range_valid && decide (0 ≤ a.range_left) && decide (a.range_left < a.range_right)
  then { a with range_left := a.range_right, range_right := a.range_left }
  else a

/- ------------------------------------------------------------------ -/
/- `$clog2` folding (lines 1241-1260)                                 -/
/- ------------------------------------------------------------------ -/

/-- The `$clog2` result loop (`simplify.cc` lines 1253-1256):
`for (i...) if (arg_value.bits.at(i) == S1) result = i;` — the accumulator ends
up holding the highest set-bit position. -/
def clog2_loop : List VState → Nat → Nat → Nat
  | [], _, result => result
  | b :: rest, i, result =>
      clog2_loop rest (i + 1) (if b = VState.S1 then i else result)

/-- `$clog2` of a folded constant argument: loop over its bits starting from
`result = 0`. -/
def clog2_result (bits : List VState) : Nat := clog2_loop bits 0 0

/-- Whether an elaboration step ended in a fatal `log_error`. -/
def isFatal {α : Type} : Except String α → Bool
  | .error _ => true
  | .ok _ => false

/-- The full `$clog2` call handling (lines 1241-1259): wrong arity is fatal, an
argument that did not fold to a constant (`none`) is fatal, otherwise the call is
replaced by `mkconst_int(result, false)`. -/
def clog2_call (args : List (Option (List VState))) : Except String Nat :=
  if args.length ≠ 1 then
    .error "System function got wrong number of arguments, expected 1"
  else
    match args with
    | [some bits] => .ok (clog2_result bits)
    | _ => .error "Failed to evaluate system function with non-constant value"

/-- Position of the last (highest) `S1` bit of an LSB-first bit list, if any:
the reference value `clog2_loop` computes. -/
def last_one_idx : List VState → Option Nat
  | [] => none
  | b :: rest =>
      match last_one_idx rest with
      | some j => some (j + 1)
      | none => if b = VState.S1 then some 0 else none

/- ------------------------------------------------------------------ -/
/- Parameter trimming/extension (lines 269-281 and 550-582)           -/
/- ------------------------------------------------------------------ -/

/-- Modelled from the spec: the external bitvector library's width adjustment
(`RTLIL::SigSpec::extend_u0`), §6 "must respect signedness and width hints" and
§4.2 "sign-extended or truncated as the initializer's signedness dictates" —
truncate to `width` when too long, otherwise pad with the sign bit when signed
and with `0` when unsigned.  LSB-first, so truncation drops high bits and
padding appends them. -/
def extend_u0 (bits : List VState) (width : Nat) (sgn : Bool) : List VState :=
  if width ≤ bits.length then bits.take width
  else bits ++ List.replicate (width - bits.length)
        (if sgn then bits.getLastD VState.S0 else VState.S0)

/-- The parameter/localparam trim-extend step (`simplify.cc` lines 551-573): a
non-`range_valid` range child is a fatal error; otherwise, when the declared
width `range_left - range_right + 1` differs from the constant initializer's bit
count, the initializer is `extend_u0`-adjusted under its own signedness; finally
the constant's signedness is overwritten by the parameter node's
(`children[0]->is_signed = is_signed`). -/
def param_trim_extend (range_valid : Bool) (range_left range_right : Int)
    (c : AConst) (param_is_signed : Bool) : Except String AConst :=
  if !range_valid then
    .error "Non-constant width range on parameter decl"
  else
    let width : Int := range_left - range_right + 1
    let newBits :=
      if width ≠ (c.bits.length : Int) then
        extend_u0 c.bits width.toNat c.signedFlag
      else c.bits
    .ok { bits := newBits, signedFlag := param_is_signed }

/-- Little-endian read-off of a fully-defined constant; `none` when an `x` or
`z` bit is present. -/
def bits_to_nat : List VState → Option Nat
  | [] => some 0
  | b :: rest =>
      match bits_to_nat rest, b with
      | some n, VState.S0 => some (2 * n)
      | some n, VState.S1 => some (2 * n + 1)
      | _, _ => none

/-- Little-endian encoding of a natural number at the given width (low `width`
bits). -/
def nat_to_bits : Nat → Nat → List VState
  | _, 0 => []
  | n, w + 1 =>
      (if n % 2 = 1 then VState.S1 else VState.S0) :: nat_to_bits (n / 2) w

/-- Modelled from the spec: the external bitvector library's `add`
(`RTLIL::const_add`) on fully-defined operands — numeric addition truncated to
the result width (§6). -/
def const_add (a b : List VState) (width : Nat) : Option (List VState) :=
  match bits_to_nat a, bits_to_nat b with
  | some x, some y => some (nat_to_bits (x + y) width)
  | _, _ => none

/- ------------------------------------------------------------------ -/
/- Dynamic-range lvalue expansion (lines 1036-1078)                   -/
/- ------------------------------------------------------------------ -/

/-- The assignment node types; the dynamic-range rewrite fires on `AST_ASSIGN_EQ`
and `AST_ASSIGN_LE` only. -/
inductive AssignType where
  | assign_eq
  | assign_le
  | assign_cont
  deriving DecidableEq

/-- One arm of the `AST_CASE` synthesized for a dynamic-range lvalue
(lines 1066-1075): an `AST_COND` with constant `mkconst_int(start_bit)`, whose
block holds one assignment (of the original type) of a clone of the rhs to the
lvalue restricted to the constant range
`[start_bit + result_width - 1 : start_bit]`. -/
structure CaseArm (α : Type) where
  cond_val : Int
  slice_left : Int
  slice_right : Int
  kind : AssignType
  rhs : α
  deriving DecidableEq

/-- Outcome of the dynamic-range lvalue rewrite attempt: fall through to
`skip_dynamic_range_lvalue_expansion`, fatal error, or replacement by a case
statement over the index expression. -/
inductive DynRangeResult (α : Type) where
  | skip
  | fatal (msg : String)
  | case_rewrite (sel : List (CaseArm α))
  deriving DecidableEq

/-- The data of an assignment's left-hand side read by the guards of
lines 1039-1046: identifier-ness and child count of the lhs, `range_valid` of its
first range child, whether `id2ast` resolves to an `AST_WIRE`, and that wire's
annotated range. -/
structure LvalueInfo where
  lhs_is_identifier : Bool
  lhs_nchildren : Nat
  range0_valid : Bool
  id2ast_is_wire : Bool
  wire_range_valid : Bool
  wire_left : Int
  wire_right : Int
  deriving DecidableEq

/-- The dynamic-range lvalue rewrite (`simplify.cc` lines 1038-1077).  The
guards mirror the four `goto skip_...` tests; `range_nchildren` is the number of
children of the lhs's range node (one child means a single-bit select with
`result_width = 1`); for two children, `at_zero_fold` holds the `at_zero`-mode
folded values of both range expressions, `none` when one of them did not fold
(fatal).  The arm list mirrors
`for (i = 0; i <= source_width - result_width; i++)` with
`start_bit = id2ast->range_right + i`. -/
def dyn_range_lvalue {α : Type} (kind : AssignType) (lhs : LvalueInfo)
    (range_nchildren : Nat) (at_zero_fold : Option (Int × Int)) (rhs : α)
    (did_something : Bool) : DynRangeResult α :=
  if kind = .assign_cont then .skip
  else if lhs.lhs_is_identifier = false ∨ lhs.lhs_nchildren = 0 then .skip
  else if lhs.range0_valid = true ∨ did_something = true then .skip
  else if lhs.id2ast_is_wire = false then .skip
  else if lhs.wire_range_valid = false then .skip
  else
    let source_width := lhs.wire_left - lhs.wire_right + 1
    let rw0 : Except Unit Int :=
      if range_nchildren = 1 then .ok 1
      else
        match at_zero_fold with
        | some (l0, r0) => .ok (l0 - r0 + 1)
        | none => .error ()
    match rw0 with
    | .error _ => .fatal "Unsupported expression on dynamic range select"
    | .ok result_width =>
        .case_rewrite ((List.range (source_width - result_width + 1).toNat).map
          (fun (i : Nat) =>
            let start_bit := lhs.wire_right + (i : Int)
            ⟨start_bit, start_bit + result_width - 1, start_bit, kind, rhs⟩))

/- ------------------------------------------------------------------ -/
/- Constant-function interpreter (lines 2121-2335)                    -/
/- ------------------------------------------------------------------ -/

/-- A local variable slot of the constant-function interpreter
(`AstNode::varinfo_t`): declared low offset, signedness and bit storage. -/
structure VarInfo where
  offset : Int
  var_signed : Bool
  val : List VState
  deriving DecidableEq

/-- The statement shapes `eval_const_function` handles; expressions are left
opaque (type `ε`) — "substitute variables, simplify with `in_param`, require a
constant" is modelled by the fold oracle passed to `const_step`.  An assignment
carries the lvalue's name and range state (`none` = no range child; `some none`
= range child that is not `range_valid`, fatal; `some (some (l, r))` = valid
constant range). -/
inductive CStmt (ε : Type) where
  | assign_eq (lhs : String) (lhsRange : Option (Option (Int × Int))) (rhs : ε)
  | c_while (cond : ε) (body : CStmt ε)
  | c_repeat (num : ε) (body : CStmt ε)
  | c_block (stmts : List (CStmt ε))
  | c_other

/-- Lookup in the interpreter's `variables` map (modelled as an association
list). -/
def lookup_var (vars : List (String × VarInfo)) (x : String) : Option VarInfo :=
  match vars with
  | [] => none
  | (y, v) :: rest => if y = x then some v else lookup_var rest x

/-- Update of the interpreter's `variables` map. -/
def update_var (vars : List (String × VarInfo)) (x : String) (v : VarInfo) :
    List (String × VarInfo) :=
  match vars with
  | [] => []
  | (y, w) :: rest =>
      if y = x then (y, v) :: rest else (y, w) :: update_var rest x v

/-- `RTLIL::Const::as_bool`: true iff some bit is `1`. -/
def const_as_bool (c : AConst) : Bool :=
  c.bits.any (fun b => b == VState.S1)

/-- `RTLIL::Const::as_int` on an LSB-first bit list: positional value counting
only `1` bits (the 32-bit truncation of the C `int` is not modelled; the loop
counts in the claims are small). -/
def const_as_nat : List VState → Nat
  | [] => 0
  | b :: rest => (if b = VState.S1 then 1 else 0) + 2 * const_as_nat rest

/-- The write loop of the ranged constant-function assignment (line 2205-2206):
`for (i = 0; i < width; i++) v.val.bits.at(i + offset - v.offset) = r.bits.at(i)`.
Out-of-range positions are left unchanged here (the C++ `.at` would throw; the
properties below only exercise in-range writes). -/
def write_bits (val : List VState) (pos : Int) (w : Nat) (r : List VState) :
    List VState :=
  (List.range w).foldl
    (fun acc (i : Nat) =>
      if 0 ≤ pos + (i : Int) then
        acc.set (pos + (i : Int)).toNat (r.getD i VState.Sx)
      else acc)
    val

/-- The `AST_ASSIGN_EQ` handling of `eval_const_function` (lines 2174-2211) for
an identifier lvalue: the folded rhs must be a constant; an unknown variable is
fatal; a full write stores `bitsAsConst(v.val.bits.size())` of the rhs; a ranged
write requires a valid constant range and overwrites `width` low-order rhs bits
at the range's offset (relative to the variable's declared offset).  At line
2202 the C++ reads the just-declared `width` inside its own initializer,
`int width = std::min(std::abs(range_left - range_right) + 1, width);` — an
uninitialized read whose indeterminate value is the `width_uninit` parameter
here. -/
def const_assign_step (vars : List (String × VarInfo)) (lhs : String)
    (lhsRange : Option (Option (Int × Int))) (rhsC : Option AConst)
    (width_uninit : Int) : Except String (List (String × VarInfo)) :=
  match rhsC with
  | none => .error "Non-constant expression in constant function"
  | some c =>
    match lookup_var vars lhs with
    | none => .error "Assignment to non-local variable in constant function"
    | some v =>
      match lhsRange with
      | none =>
          .ok (update_var vars lhs
            { v with val := extend_u0 c.bits v.val.length c.signedFlag })
      | some none => .error "Non-constant range"
      | some (some (rl, rr)) =>
          let offset := min rl rr
          let width := min (|rl - rr| + 1) width_uninit
          let r := extend_u0 c.bits v.val.length c.signedFlag
          .ok (update_var vars lhs
            { v with val := write_bits v.val (offset - v.offset) width.toNat r })

/-- One iteration of the statement work-list loop of `eval_const_function`
(lines 2163-2323): an assignment is executed and consumed; a `while` with a true
condition prepends a clone of its body (keeping itself), with a false condition
it is consumed; a `repeat` is replaced by `as_int` clones of its body; a block
is spliced; any other construct is fatal, as is a condition or count that does
not fold to a constant. -/
def const_step {ε : Type} (foldE : ε → Option AConst) (width_uninit : Int) :
    List (CStmt ε) × List (String × VarInfo) →
      Except String (List (CStmt ε) × List (String × VarInfo))
  | ([], vars) => .ok ([], vars)
  | (stmt :: rest, vars) =>
    match stmt with
    | .assign_eq lhs lhsRange rhs =>
        match const_assign_step vars lhs lhsRange (foldE rhs) width_uninit with
        | .error e => .error e
        | .ok vars2 => .ok (rest, vars2)
    | .c_while cond body =>
        match foldE cond with
        | none => .error "Non-constant expression in constant function"
        | some c =>
            if const_as_bool c then
              .ok (body :: .c_while cond body :: rest, vars)
            else .ok (rest, vars)
    | .c_repeat num body =>
        match foldE num with
        | none => .error "Non-constant expression in constant function"
        | some c => .ok (List.replicate (const_as_nat c.bits) body ++ rest, vars)
    | .c_block stmts => .ok (stmts ++ rest, vars)
    | .c_other => .error "Unsupported language construct in constant function"

/-- The statement node types relevant to the loop checks of the simplify
driver. -/
inductive StmtNode where
  | ast_while
  | ast_repeat
  | ast_block
  | ast_assign_eq
  | ast_case
  deriving DecidableEq

/-- Lines 658-662 of `AstNode::simplify`: outside constant-function evaluation a
`while` or `repeat` node is rejected with a fatal `log_error`; no other
statement kind is rejected by this check. -/
def simplify_loop_check (t : StmtNode) : Except String Unit :=
  match t with
  | .ast_while => .error "While loops are only allowed in constant functions"
  | .ast_repeat => .error "Repeat loops are only allowed in constant functions"
  | _ => .ok ()

/- ------------------------------------------------------------------ -/
/- The three-stage driver (lines 58-143)                              -/
/- ------------------------------------------------------------------ -/

/-- One `while (simplify(..., stage, ...)) { }` loop, with explicit fuel (the
C++ loop is unbounded; all driver properties are conditional on reaching
quiescence within the fuel). -/
def while_simplify {α : Type} (p : Nat → α → α × Bool) (stage : Nat) :
    Nat → α → α
  | 0, m => m
  | fuel + 1, m =>
      let r := p stage m
      if r.2 then while_simplify p stage fuel r.1 else r.1

/-- The collaborators of the stage-0 driver: the per-stage rewrite pass
(`simplify` at stage ≥ 1, returning the rewritten module and its did-something
flag), the mem2reg analysis-and-lowering block (lines 64-139 minus the gate),
the global `flag_nomem2reg`, and the module's `\nomem2reg` attribute. -/
structure DriverOps (α : Type) where
  pass : Nat → α → α × Bool
  mem2reg_lower : α → α
  flag_nomem2reg : Bool
  mod_nomem2reg : α → Bool

/-- The stage-0 entry of `AstNode::simplify` (lines 58-143): drive stage 1 to
quiescence, run the mem2reg block unless globally disabled or vetoed by the
module attribute, drive stage 2 to quiescence, and return `false`. -/
def simplify_stage0 {α : Type} (ops : DriverOps α) (fuel : Nat) (m : α) :
    α × Bool :=
  let m1 := while_simplify ops.pass 1 fuel m
  let m2 := if !ops.flag_nomem2reg && !ops.mod_nomem2reg m1
            then ops.mem2reg_lower m1 else m1
  let m3 := while_simplify ops.pass 2 fuel m2
  (m3, false)

/-- Quiescence of a pass at a stage in exactly `k` did-something steps from a
state. -/
inductive Quiesces {α : Type} (p : Nat → α → α × Bool) (stage : Nat) :
    α → Nat → Prop where
  | stop {m : α} : (p stage m).2 = false → Quiesces p stage m 0
  | step {m : α} {k : Nat} : (p stage m).2 = true →
      Quiesces p stage (p stage m).1 k → Quiesces p stage m (k + 1)

/- ------------------------------------------------------------------ -/
/- Theorems: C1                                                       -/
/- ------------------------------------------------------------------ -/

/-- C1: a memory processed at stage 0 is demoted to a list of registers iff its
`\nomem2reg` attribute is absent and at least one of FORCED, EQ2, SET_ASYNC,
(SET_INIT and SET_ELSE), CMPLX_LHS is set; in particular `\nomem2reg` vetoes the
demotion even when FORCED is set.  (When the module itself is gated by
`flag_nomem2reg` or a module-level `\nomem2reg`, the analysis never runs and
nothing is demoted.) -/
theorem mem2reg_demotion_iff :
    (∀ (nm : Bool) (f : Mem2RegFlags),
        mem2reg_decision nm f =
          (!nm && (f.forced || f.eq2 || f.set_async || (f.set_init && f.set_else)
             || f.cmplx_lhs)))
    ∧ (∀ (c : MemCandidate) (cands : List MemCandidate),
        c ∈ stage0_mem2reg_set false false cands ↔
          c ∈ cands ∧ c.nomem2reg = false ∧
            (c.flags.forced || c.flags.eq2 || c.flags.set_async
              || (c.flags.set_init && c.flags.set_else) || c.flags.cmplx_lhs) = true)
    ∧ (∀ (fl mo : Bool) (cands : List MemCandidate),
        (fl || mo) = true → stage0_mem2reg_set fl mo cands = []) := by
  have hdec : ∀ (nm : Bool) (f : Mem2RegFlags),
      mem2reg_decision nm f =
        (!nm && (f.forced || f.eq2 || f.set_async || (f.set_init && f.set_else)
           || f.cmplx_lhs)) := by
    intro nm f
    obtain ⟨a, b, c, d, e, g⟩ := f
    cases nm <;> cases a <;> cases b <;> cases c <;> cases d <;> cases e <;>
      cases g <;> rfl
  refine ⟨hdec, ?_, ?_⟩
  · intro c cands
    simp only [stage0_mem2reg_set, Bool.not_false, Bool.and_self, if_pos,
      List.mem_filter, hdec]
    simp [Bool.and_eq_true, Bool.not_eq_true', and_assoc]
  · intro fl mo cands h
    cases fl <;> cases mo <;> simp_all [stage0_mem2reg_set]

/-- C1 witness: concrete instantiations of `mem2reg_demotion_iff` — with the
global gate raised nothing is demoted. -/
theorem mem2reg_demotion_iff_witness :
    (true || false) = true ∧
      stage0_mem2reg_set true false
        [⟨"\\m", false, ⟨true, false, false, false, false, false⟩⟩] = [] :=
  ⟨by decide,
   mem2reg_demotion_iff.2.2 true false
     [⟨"\\m", false, ⟨true, false, false, false, false, false⟩⟩] (by decide)⟩

/- ------------------------------------------------------------------ -/
/- Theorems: C10                                                      -/
/- ------------------------------------------------------------------ -/

theorem addr_bits_loop_le_pow (m : Int) :
    ∀ (n k : Nat), (m - 2 ^ k).toNat ≤ n → m ≤ 2 ^ addr_bits_loop m k := by
  intro n
  induction n with
  | zero =>
      intro k hk
      rw [addr_bits_loop]
      have h1 : (0 : Int) < 2 ^ k := pow_pos (by norm_num) k
      split
      · omega
      · omega
  | succ n ih =>
      intro k hk
      rw [addr_bits_loop]
      split
      next h =>
        apply ih
        have h1 : (0 : Int) < 2 ^ k := pow_pos (by norm_num) k
        have h2 : (2 : Int) ^ (k + 1) = 2 ^ k * 2 := pow_succ 2 k
        omega
      next h => omega

theorem addr_bits_loop_ge (m : Int) :
    ∀ (n k : Nat), (m - 2 ^ k).toNat ≤ n → k ≤ addr_bits_loop m k := by
  intro n
  induction n with
  | zero =>
      intro k hk
      rw [addr_bits_loop]
      split
      next h =>
        have h1 : (0 : Int) < 2 ^ k := pow_pos (by norm_num) k
        omega
      next h => exact le_refl k
  | succ n ih =>
      intro k hk
      rw [addr_bits_loop]
      split
      next h =>
        have h1 : (0 : Int) < 2 ^ k := pow_pos (by norm_num) k
        have h2 : (2 : Int) ^ (k + 1) = 2 ^ k * 2 := pow_succ 2 k
        have := ih (k + 1) (by omega)
        omega
      next h => exact le_refl k

theorem addr_bits_loop_min (m : Int) :
    ∀ (n k j : Nat), (m - 2 ^ k).toNat ≤ n → k ≤ j → m ≤ 2 ^ j →
      addr_bits_loop m k ≤ j := by
  intro n
  induction n with
  | zero =>
      intro k j hk hkj hj
      rw [addr_bits_loop]
      split
      next h =>
        have h1 : (0 : Int) < 2 ^ k := pow_pos (by norm_num) k
        omega
      next h => exact hkj
  | succ n ih =>
      intro k j hk hkj hj
      rw [addr_bits_loop]
      split
      next h =>
        have h1 : (0 : Int) < 2 ^ k := pow_pos (by norm_num) k
        have h2 : (2 : Int) ^ (k + 1) = 2 ^ k * 2 := pow_succ 2 k
        have hkj2 : k + 1 ≤ j := by
          rcases Nat.lt_or_ge k j with hlt | hge
          · omega
          · exfalso
            have : (2 : Int) ^ j ≤ 2 ^ k :=
              pow_le_pow_right₀ (by norm_num) hge
            omega
        exact ih (k + 1) j (by omega) hkj2 hj
      next h => exact hkj

/-- C10: `meminfo` returns `mem_width = range_left - range_right + 1` of the first
range, `mem_size = max(range_left, range_right) + 1` of the second range
(regardless of the minimum bound), and `addr_bits` = the least `k ≥ 1` with
`2^k ≥ mem_size`; `mem_size` is exactly the number of registers mem2reg
synthesizes for a demoted memory. -/
theorem meminfo_geometry (memName : String) (r0 r1 : RangeVal) :
    (meminfo r0 r1).1 = r0.range_left - r0.range_right + 1
    ∧ (meminfo r0 r1).2.1 = max r1.range_left r1.range_right + 1
    ∧ 1 ≤ (meminfo r0 r1).2.2
    ∧ (meminfo r0 r1).2.1 ≤ 2 ^ (meminfo r0 r1).2.2
    ∧ (∀ j : Nat, 1 ≤ j → (meminfo r0 r1).2.1 ≤ 2 ^ j → (meminfo r0 r1).2.2 ≤ j)
    ∧ (mem2reg_registers memName r0 r1).length = (meminfo r0 r1).2.1.toNat := by
  have hsize : (meminfo r0 r1).2.1 = max r1.range_left r1.range_right + 1 := by
    simp only [meminfo]
    split <;> omega
  refine ⟨rfl, hsize, ?_, ?_, ?_, ?_⟩
  · exact addr_bits_loop_ge _ _ 1 (le_refl _)
  · exact addr_bits_loop_le_pow _ _ 1 (le_refl _)
  · intro j h1 hj
    exact addr_bits_loop_min _ _ 1 j (le_refl _) h1 hj
  · simp [mem2reg_registers]

/-- C10 witness: `meminfo` on a `reg [3:0] m [0:3]` memory — the minimality of
`addr_bits` instantiated at `j = 2`. -/
theorem meminfo_geometry_witness :
    1 ≤ 2 ∧ (meminfo ⟨3, 0⟩ ⟨0, 3⟩).2.1 ≤ 2 ^ 2 ∧
      (meminfo ⟨3, 0⟩ ⟨0, 3⟩).2.2 ≤ 2 :=
  ⟨by norm_num, by decide,
   (meminfo_geometry "\\m" ⟨3, 0⟩ ⟨0, 3⟩).2.2.2.2.1 2 (by norm_num) (by decide)⟩

/- ------------------------------------------------------------------ -/
/- Theorems: C7                                                       -/
/- ------------------------------------------------------------------ -/

/-- C7 counterexample: the range `[-1:0]` (as produced e.g. by `wire [SIZE-1:0]`
with `SIZE = 0`) annotates to `range_valid = true` with
`range_left = -1 < 0 = range_right`: the claimed unconditional invariant
`range_valid ⇒ range_left ≥ range_right` fails because the swap requires
`range_left >= 0`. -/
theorem range_annotate_negative_left_cex :
    (range_annotate (.const (-1)) [.const 0]).range_valid = true ∧
    (range_annotate (.const (-1)) [.const 0]).range_left <
      (range_annotate (.const (-1)) [.const 0]).range_right := by
  constructor
  · rfl
  · decide

/-- C7 (amended): after annotation, `range_valid` together with
`0 ≤ range_left` implies `range_left ≥ range_right`; the swap normalization
fires exactly when the raw bounds are valid, the left bound is non-negative and
`range_right > range_left` — in which case both bounds are non-negative —
and otherwise the raw annotation is returned unchanged. -/
theorem range_annotate_normalized_nonneg (c0 : FoldedChild)
    (rest : List FoldedChild) :
    ((range_annotate c0 rest).range_valid = true →
      0 ≤ (range_annotate c0 rest).range_left →
      (range_annotate c0 rest).range_right ≤ (range_annotate c0 rest).range_left)
    ∧ ((range_annotate_raw c0 rest).range_valid = true ∧
        0 ≤ (range_annotate_raw c0 rest).range_left ∧
        (range_annotate_raw c0 rest).range_left <
          (range_annotate_raw c0 rest).range_right →
        0 ≤ (range_annotate_raw c0 rest).range_left ∧
        0 ≤ (range_annotate_raw c0 rest).range_right ∧
        range_annotate c0 rest =
          { range_annotate_raw c0 rest with
              range_left := (range_annotate_raw c0 rest).range_right,
              range_right := (range_annotate_raw c0 rest).range_left })
    ∧ (¬((range_annotate_raw c0 rest).range_valid = true ∧
          0 ≤ (range_annotate_raw c0 rest).range_left ∧
          (range_annotate_raw c0 rest).range_left <
            (range_annotate_raw c0 rest).range_right) →
        range_annotate c0 rest = range_annotate_raw c0 rest) := by
  set a := range_annotate_raw c0 rest with ha
  have hdef : range_annotate c0 rest =
      (if a.range_valid && decide (0 ≤ a.range_left)
          && decide (a.range_left < a.range_right)
       then { a with range_left := a.range_right, range_right := a.range_left }
       else a) := rfl
  by_cases hcond : a.range_valid = true ∧ 0 ≤ a.range_left ∧
      a.range_left < a.range_right
  · have hb : (a.range_valid && decide (0 ≤ a.range_left)
        && decide (a.range_left < a.range_right)) = true := by
      simp [hcond.1, hcond.2.1, hcond.2.2]
    rw [hb, if_pos rfl] at hdef
    refine ⟨?_, ?_, ?_⟩
    · intro _ _
      rw [hdef]
      exact le_of_lt hcond.2.2
    · intro _
      exact ⟨hcond.2.1, le_trans hcond.2.1 (le_of_lt hcond.2.2), hdef⟩
    · intro hn
      exact absurd hcond hn
  · have hb : (a.range_valid && decide (0 ≤ a.range_left)
        && decide (a.range_left < a.range_right)) = false := by
      cases hB : (a.range_valid && decide (0 ≤ a.range_left)
          && decide (a.range_left < a.range_right)) with
      | false => rfl
      | true =>
          rw [Bool.and_eq_true, Bool.and_eq_true] at hB
          exact absurd ⟨hB.1.1, of_decide_eq_true hB.1.2, of_decide_eq_true hB.2⟩
            hcond
    rw [hb, if_neg (by simp)] at hdef
    refine ⟨?_, ?_, ?_⟩
    · intro hv h0
      rw [hdef] at hv h0 ⊢
      by_contra hlt
      exact hcond ⟨hv, h0, by omega⟩
    · intro hc
      exact absurd hc hcond
    · intro _
      exact hdef

/-- C7 witness: the amended invariant and the swap characterization applied to
the swapped range `[2:5]`. -/
theorem range_annotate_normalized_nonneg_witness :
    ((range_annotate (.const 2) [.const 5]).range_valid = true ∧
      0 ≤ (range_annotate (.const 2) [.const 5]).range_left) ∧
    (range_annotate (.const 2) [.const 5]).range_right ≤
      (range_annotate (.const 2) [.const 5]).range_left :=
  ⟨⟨by decide, by decide⟩,
   (range_annotate_normalized_nonneg (.const 2) [.const 5]).1 (by decide)
     (by decide)⟩

/- ------------------------------------------------------------------ -/
/- Theorems: C6                                                       -/
/- ------------------------------------------------------------------ -/

theorem clog2_loop_eq (l : List VState) :
    ∀ (i acc : Nat), clog2_loop l i acc =
      (match last_one_idx l with
       | some j => i + j
       | none => acc) := by
  induction l with
  | nil => intro i acc; rfl
  | cons b rest ih =>
      intro i acc
      show clog2_loop rest (i + 1) (if b = VState.S1 then i else acc) = _
      rw [ih]
      have hcons : last_one_idx (b :: rest) =
          (match last_one_idx rest with
           | some j => some (j + 1)
           | none => if b = VState.S1 then some 0 else none) := rfl
      rw [hcons]
      cases h : last_one_idx rest with
      | some j =>
          show i + 1 + j = i + (j + 1)
          omega
      | none =>
          by_cases hb : b = VState.S1 <;> simp [hb]

theorem last_one_idx_some (l : List VState) :
    ∀ j, last_one_idx l = some j →
      j < l.length ∧ l.getD j VState.Sx = VState.S1 := by
  induction l with
  | nil => intro j h; exact absurd h (by simp [last_one_idx])
  | cons b rest ih =>
      intro j h
      cases hr : last_one_idx rest with
      | some j0 =>
          rw [last_one_idx, hr] at h
          obtain rfl : j0 + 1 = j := by simpa using h
          have := ih j0 hr
          refine ⟨by simpa using this.1, ?_⟩
          simpa [List.getD] using this.2
      | none =>
          rw [last_one_idx, hr] at h
          by_cases hb : b = VState.S1
          · rw [if_pos hb] at h
            obtain rfl : 0 = j := by simpa using h
            exact ⟨by simp, by simpa [List.getD] using hb⟩
          · rw [if_neg hb] at h
            exact absurd h (by simp)

theorem last_one_idx_ge (l : List VState) :
    ∀ i, i < l.length → l.getD i VState.Sx = VState.S1 →
      ∃ j, last_one_idx l = some j ∧ i ≤ j := by
  induction l with
  | nil => intro i h; exact absurd h (by simp)
  | cons b rest ih =>
      intro i hi hbit
      cases i with
      | zero =>
          cases hr : last_one_idx rest with
          | some j0 => exact ⟨j0 + 1, by simp [last_one_idx, hr], by omega⟩
          | none =>
              have hb : b = VState.S1 := by simpa [List.getD] using hbit
              exact ⟨0, by simp [last_one_idx, hr, hb], le_refl 0⟩
      | succ i0 =>
          have hi0 : i0 < rest.length := by simpa using hi
          have hbit0 : rest.getD i0 VState.Sx = VState.S1 := by
            simpa [List.getD] using hbit
          obtain ⟨j0, hj0, hle⟩ := ih i0 hi0 hbit0
          exact ⟨j0 + 1, by simp [last_one_idx, hj0], by omega⟩

/-- C6: a `$clog2` call on an argument that folds to a constant is replaced by
the unsigned constant equal to the highest set-bit position of the argument (0
when no bit is set); a non-constant argument or an argument count other than 1
is a fatal error. -/
theorem clog2_highest_bit :
    (∀ bits, clog2_call [some bits] = .ok (clog2_result bits))
    ∧ (∀ (bits : List VState) (i : Nat), i < bits.length →
        bits.getD i VState.Sx = VState.S1 →
          i ≤ clog2_result bits ∧ clog2_result bits < bits.length ∧
            bits.getD (clog2_result bits) VState.Sx = VState.S1)
    ∧ (∀ bits : List VState,
        (∀ i, i < bits.length → bits.getD i VState.Sx ≠ VState.S1) →
          clog2_result bits = 0)
    ∧ (∀ args, args.length ≠ 1 → isFatal (clog2_call args) = true)
    ∧ isFatal (clog2_call [none]) = true := by
  refine ⟨fun bits => rfl, ?_, ?_, ?_, rfl⟩
  · intro bits i hi hbit
    obtain ⟨j, hj, hij⟩ := last_one_idx_ge bits i hi hbit
    have hspec := last_one_idx_some bits j hj
    have hres : clog2_result bits = j := by
      rw [clog2_result, clog2_loop_eq, hj]
      simp
    rw [hres]
    exact ⟨hij, hspec.1, hspec.2⟩
  · intro bits hnone
    rw [clog2_result, clog2_loop_eq]
    cases hj : last_one_idx bits with
    | some j =>
        have hspec := last_one_idx_some bits j hj
        exact absurd hspec.2 (hnone j hspec.1)
    | none => rfl
  · intro args h
    match args with
    | [] => rfl
    | [some bits] => exact absurd rfl h
    | [none] => rfl
    | a :: b :: rest => rfl

/-- C6 witness: `$clog2` on the 3-bit constant `5 = 101b` gives 2, applied at the
set bit `i = 0`; wrong arity is fatal. -/
theorem clog2_highest_bit_witness :
    (0 < 3 ∧ ([VState.S1, VState.S0, VState.S1].getD 0 VState.Sx = VState.S1)
      ∧ (0 ≤ clog2_result [VState.S1, VState.S0, VState.S1]
          ∧ clog2_result [VState.S1, VState.S0, VState.S1] < 3
          ∧ [VState.S1, VState.S0, VState.S1].getD
              (clog2_result [VState.S1, VState.S0, VState.S1]) VState.Sx
              = VState.S1))
    ∧ (([] : List (Option (List VState))).length ≠ 1
        ∧ isFatal (clog2_call []) = true) :=
  ⟨⟨by decide, by decide,
    clog2_highest_bit.2.1 [VState.S1, VState.S0, VState.S1] 0 (by decide)
      (by decide)⟩,
   ⟨by decide, clog2_highest_bit.2.2.2.1 [] (by decide)⟩⟩

/- ------------------------------------------------------------------ -/
/- Theorems: C4                                                       -/
/- ------------------------------------------------------------------ -/

theorem extend_u0_length (bits : List VState) (width : Nat) (sgn : Bool) :
    (extend_u0 bits width sgn).length = width := by
  rw [extend_u0]
  split
  next h => simp [Nat.min_eq_left h]
  next h => simp; omega

/-- C4: a parameter/localparam with a valid range and a constant initializer
ends up with an initializer of exactly the declared width
`range_left - range_right + 1`, truncated or sign- or zero-extended according to
the initializer's own signedness (its final `is_signed` is the parameter's); a
non-constant width range is fatal; and `parameter [7:0] P = 3 + 5` elaborates to
the 8-bit constant 8 under a range annotated `range_valid, 7, 0`. -/
theorem param_width_clamp (rl rr : Int) (c : AConst) (ps : Bool) :
    (rr ≤ rl →
      ∃ out, param_trim_extend true rl rr c ps = .ok out
        ∧ (out.bits.length : Int) = rl - rr + 1
        ∧ out.signedFlag = ps
        ∧ ((rl - rr + 1 : Int) ≤ (c.bits.length : Int) →
            out.bits = c.bits.take (rl - rr + 1).toNat)
        ∧ ((c.bits.length : Int) ≤ (rl - rr + 1 : Int) →
            out.bits = c.bits ++
              List.replicate ((rl - rr + 1).toNat - c.bits.length)
                (if c.signedFlag then c.bits.getLastD VState.S0 else VState.S0)))
    ∧ param_trim_extend false rl rr c ps =
        .error "Non-constant width range on parameter decl"
    ∧ (const_add (nat_to_bits 3 32) (nat_to_bits 5 32) 32
          = some (nat_to_bits 8 32)
        ∧ param_trim_extend true 7 0 ⟨nat_to_bits 8 32, true⟩ false
            = .ok ⟨nat_to_bits 8 8, false⟩
        ∧ range_annotate (.const 7) [.const 0] = ⟨true, 7, 0⟩) := by
  refine ⟨?_, rfl, by rfl, by rfl, by rfl⟩
  intro hrl
  have hw : (0 : Int) < rl - rr + 1 := by omega
  refine ⟨⟨if (rl - rr + 1 : Int) ≠ (c.bits.length : Int) then
      extend_u0 c.bits (rl - rr + 1).toNat c.signedFlag else c.bits, ps⟩,
    rfl, ?_, rfl, ?_, ?_⟩
  · by_cases hne : (rl - rr + 1 : Int) ≠ (c.bits.length : Int)
    · show (((if _ then _ else _ : List VState)).length : Int) = _
      rw [if_pos hne, extend_u0_length]
      omega
    · show (((if _ then _ else _ : List VState)).length : Int) = _
      rw [if_neg hne]
      omega
  · intro hle
    by_cases hne : (rl - rr + 1 : Int) ≠ (c.bits.length : Int)
    · show (if _ then _ else _ : List VState) = _
      rw [if_pos hne, extend_u0, if_pos (by omega)]
    · show (if _ then _ else _ : List VState) = _
      rw [if_neg hne]
      have hlen : (rl - rr + 1).toNat = c.bits.length := by omega
      rw [hlen, List.take_length]
  · intro hge
    by_cases hne : (rl - rr + 1 : Int) ≠ (c.bits.length : Int)
    · show (if _ then _ else _ : List VState) = _
      rw [if_pos hne, extend_u0, if_neg (by omega)]
    · show (if _ then _ else _ : List VState) = _
      rw [if_neg hne]
      have hlen : (rl - rr + 1).toNat = c.bits.length := by omega
      rw [hlen, Nat.sub_self, List.replicate_zero, List.append_nil]

/-- C4 witness: the trim-extend contract applied to an 8-bit declared width with
a 32-bit signed initializer. -/
theorem param_width_clamp_witness :
    (0 : Int) ≤ 7 ∧
      ∃ out, param_trim_extend true 7 0 ⟨nat_to_bits 8 32, true⟩ false = .ok out
        ∧ (out.bits.length : Int) = 7 - 0 + 1
        ∧ out.signedFlag = false
        ∧ ((7 - 0 + 1 : Int) ≤ ((nat_to_bits 8 32).length : Int) →
            out.bits = (nat_to_bits 8 32).take (7 - 0 + 1 : Int).toNat)
        ∧ (((nat_to_bits 8 32).length : Int) ≤ (7 - 0 + 1 : Int) →
            out.bits = nat_to_bits 8 32 ++
              List.replicate ((7 - 0 + 1 : Int).toNat - (nat_to_bits 8 32).length)
                (if (true : Bool) then (nat_to_bits 8 32).getLastD VState.S0
                 else VState.S0)) :=
  ⟨by decide, (param_width_clamp 7 0 ⟨nat_to_bits 8 32, true⟩ false).1 (by decide)⟩

/- ------------------------------------------------------------------ -/
/- Theorems: C3                                                       -/
/- ------------------------------------------------------------------ -/

theorem dyn_range_lvalue_open {α : Type} (kind : AssignType) (lhs : LvalueInfo)
    (rnc : Nat) (azf : Option (Int × Int)) (rhs : α) (res_w : Int)
    (hkind : ¬kind = .assign_cont)
    (h1 : lhs.lhs_is_identifier = true) (h2 : lhs.lhs_nchildren ≠ 0)
    (h3 : lhs.range0_valid = false) (h4 : lhs.id2ast_is_wire = true)
    (h5 : lhs.wire_range_valid = true)
    (hres : (if rnc = 1 then Except.ok 1 else
             match azf with
             | some (l0, r0) => Except.ok (l0 - r0 + 1)
             | none => Except.error ()) = Except.ok res_w) :
    dyn_range_lvalue kind lhs rnc azf rhs false =
      .case_rewrite
        ((List.range ((lhs.wire_left - lhs.wire_right + 1) - res_w + 1).toNat).map
          (fun (i : Nat) =>
            ⟨lhs.wire_right + (i : Int), lhs.wire_right + (i : Int) + res_w - 1,
             lhs.wire_right + (i : Int), kind, rhs⟩)) := by
  unfold dyn_range_lvalue
  rw [if_neg hkind]
  rw [if_neg (by simp [h1, h2])]
  rw [if_neg (by simp [h3])]
  rw [if_neg (by simp [h4])]
  rw [if_neg (by simp [h5])]
  rw [hres]

/-- C3: for a blocking or non-blocking assignment whose lhs is an identifier of a
simple wire with valid declared range and whose range expressions do not fold to
a constant, the assignment becomes a case statement over the index expression
with exactly `source_width - result_width + 1` arms, arm `i` (counting from the
wire's low bound) assigning the rhs to the constant slice
`[i + result_width - 1 : i]` of the wire; a single-bit dynamic select on a 4-bit
register yields four single-bit arms. -/
theorem dyn_range_lvalue_case_arms :
    (∀ (α : Type) (kind : AssignType) (lhs : LvalueInfo) (rhs : α),
      (kind = .assign_eq ∨ kind = .assign_le) →
      lhs.lhs_is_identifier = true → lhs.lhs_nchildren ≠ 0 →
      lhs.range0_valid = false → lhs.id2ast_is_wire = true →
      lhs.wire_range_valid = true → lhs.wire_right ≤ lhs.wire_left →
      ∃ arms, dyn_range_lvalue kind lhs 1 none rhs false = .case_rewrite arms
        ∧ (arms.length : Int) = (lhs.wire_left - lhs.wire_right + 1) - 1 + 1
        ∧ ∀ (k : Nat) (hk : k < arms.length),
            arms.get ⟨k, hk⟩ =
              { cond_val := lhs.wire_right + k,
                slice_left := lhs.wire_right + k + 1 - 1,
                slice_right := lhs.wire_right + k, kind := kind, rhs := rhs })
    ∧ (∀ (α : Type) (kind : AssignType) (lhs : LvalueInfo) (rhs : α)
        (l0 r0 : Int),
      (kind = .assign_eq ∨ kind = .assign_le) →
      lhs.lhs_is_identifier = true → lhs.lhs_nchildren ≠ 0 →
      lhs.range0_valid = false → lhs.id2ast_is_wire = true →
      lhs.wire_range_valid = true →
      1 ≤ l0 - r0 + 1 →
      l0 - r0 + 1 ≤ lhs.wire_left - lhs.wire_right + 1 →
      ∃ arms,
        dyn_range_lvalue kind lhs 2 (some (l0, r0)) rhs false =
          .case_rewrite arms
        ∧ (arms.length : Int) =
            (lhs.wire_left - lhs.wire_right + 1) - (l0 - r0 + 1) + 1
        ∧ ∀ (k : Nat) (hk : k < arms.length),
            arms.get ⟨k, hk⟩ =
              { cond_val := lhs.wire_right + k,
                slice_left := lhs.wire_right + k + (l0 - r0 + 1) - 1,
                slice_right := lhs.wire_right + k, kind := kind, rhs := rhs })
    ∧ @dyn_range_lvalue Unit .assign_eq ⟨true, 1, false, true, true, 3, 0⟩ 1
          none () false
        = .case_rewrite
            [⟨0, 0, 0, .assign_eq, ()⟩, ⟨1, 1, 1, .assign_eq, ()⟩,
             ⟨2, 2, 2, .assign_eq, ()⟩, ⟨3, 3, 3, .assign_eq, ()⟩] := by
  refine ⟨?_, ?_, by rfl⟩
  · intro α kind lhs rhs hkind h1 h2 h3 h4 h5 hwr
    have hkc : ¬kind = AssignType.assign_cont := by
      rcases hkind with rfl | rfl <;> simp
    refine ⟨_, dyn_range_lvalue_open kind lhs 1 none rhs 1 hkc h1 h2 h3 h4 h5
      (by simp), ?_, ?_⟩
    · simp only [List.length_map, List.length_range]
      omega
    · intro k hk
      have hk2 : k < ((lhs.wire_left - lhs.wire_right + 1) - 1 + 1).toNat := by
        simpa using hk
      simp [List.get_eq_getElem, List.getElem_map, List.getElem_range]
  · intro α kind lhs rhs l0 r0 hkind h1 h2 h3 h4 h5 hres hle
    have hkc : ¬kind = AssignType.assign_cont := by
      rcases hkind with rfl | rfl <;> simp
    refine ⟨_, dyn_range_lvalue_open kind lhs 2 (some (l0, r0)) rhs (l0 - r0 + 1)
      hkc h1 h2 h3 h4 h5 (by simp), ?_, ?_⟩
    · simp only [List.length_map, List.length_range]
      omega
    · intro k hk
      simp [List.get_eq_getElem, List.getElem_map, List.getElem_range]

/-- C3 witness: the single-bit dynamic-select contract applied to a non-blocking
assignment into a `[3:0]` wire. -/
theorem dyn_range_lvalue_case_arms_witness :
    (AssignType.assign_le = AssignType.assign_eq ∨
      AssignType.assign_le = AssignType.assign_le)
    ∧ ∃ arms,
        @dyn_range_lvalue Unit .assign_le ⟨true, 1, false, true, true, 3, 0⟩ 1
            none () false
          = .case_rewrite arms
        ∧ (arms.length : Int) =
            ((LvalueInfo.mk true 1 false true true 3 0).wire_left -
              (LvalueInfo.mk true 1 false true true 3 0).wire_right + 1) - 1 + 1
        ∧ ∀ (k : Nat) (hk : k < arms.length),
            arms.get ⟨k, hk⟩ =
              { cond_val := (LvalueInfo.mk true 1 false true true 3 0).wire_right
                  + k,
                slice_left :=
                  (LvalueInfo.mk true 1 false true true 3 0).wire_right + k
                    + 1 - 1,
                slice_right :=
                  (LvalueInfo.mk true 1 false true true 3 0).wire_right + k,
                kind := AssignType.assign_le, rhs := () } :=
  ⟨Or.inr rfl,
   dyn_range_lvalue_case_arms.1 Unit .assign_le ⟨true, 1, false, true, true, 3, 0⟩
     () (Or.inr rfl) rfl (by decide) rfl rfl rfl (by decide)⟩

/- ------------------------------------------------------------------ -/
/- Theorems: C8                                                       -/
/- ------------------------------------------------------------------ -/

/-- C8 (evaluating the code at the failing input): the ranged constant-function
assignment computes its write width as
`min(|range_left - range_right| + 1, width)` where `width` is the variable being
declared, read uninitialized (line 2202).  For an 8-bit variable, lvalue range
`[3:0]` and rhs `4'b1111`: an indeterminate value 0 writes no bits at all, while
an indeterminate ≥ 4 (e.g. the variable's width — the clamp the parallel
`replace_variables` code at line 2105 actually performs) overwrites exactly bits
3..0 and leaves bits 7..4 unchanged; the two outcomes differ, so the stored
result depends on the indeterminate value, contradicting the specified
behaviour; the statement is consumed from the work list either way. -/
theorem const_assign_uninit_width_eval :
    const_assign_step
        [("\\x", ⟨0, false, [VState.S0, VState.S0, VState.S0, VState.S0,
                             VState.S0, VState.S0, VState.S0, VState.S0]⟩)]
        "\\x" (some (some (3, 0)))
        (some ⟨[VState.S1, VState.S1, VState.S1, VState.S1], false⟩) 0
      = .ok [("\\x", ⟨0, false, [VState.S0, VState.S0, VState.S0, VState.S0,
                                 VState.S0, VState.S0, VState.S0, VState.S0]⟩)]
    ∧ const_assign_step
        [("\\x", ⟨0, false, [VState.S0, VState.S0, VState.S0, VState.S0,
                             VState.S0, VState.S0, VState.S0, VState.S0]⟩)]
        "\\x" (some (some (3, 0)))
        (some ⟨[VState.S1, VState.S1, VState.S1, VState.S1], false⟩) 8
      = .ok [("\\x", ⟨0, false, [VState.S1, VState.S1, VState.S1, VState.S1,
                                 VState.S0, VState.S0, VState.S0, VState.S0]⟩)]
    ∧ decide
        (([("\\x", (⟨0, false, [VState.S0, VState.S0, VState.S0, VState.S0,
              VState.S0, VState.S0, VState.S0, VState.S0]⟩ : VarInfo))]
            : List (String × VarInfo))
          = [("\\x", ⟨0, false, [VState.S1, VState.S1, VState.S1, VState.S1,
              VState.S0, VState.S0, VState.S0, VState.S0]⟩)]) = false
    ∧ const_step (fun _ : Unit =>
          some ⟨[VState.S1, VState.S1, VState.S1, VState.S1], false⟩) 8
        ([CStmt.assign_eq "\\x" (some (some (3, 0))) ()],
         [("\\x", ⟨0, false, [VState.S0, VState.S0, VState.S0, VState.S0,
                              VState.S0, VState.S0, VState.S0, VState.S0]⟩)])
      = .ok ([],
         [("\\x", ⟨0, false, [VState.S1, VState.S1, VState.S1, VState.S1,
                              VState.S0, VState.S0, VState.S0, VState.S0]⟩)]) :=
  ⟨rfl, rfl, rfl, rfl⟩

/- ------------------------------------------------------------------ -/
/- Theorems: C9                                                       -/
/- ------------------------------------------------------------------ -/

/-- C9: the simplify driver rejects every `while` and `repeat` node with a fatal
error (and rejects nothing else through this check), whereas the
constant-function interpreter executes both: a `while` whose condition folds to
a constant either prepends its body (true) or is consumed (false), and a
`repeat` whose count folds is replaced by that many clones of its body. -/
theorem while_repeat_only_const_functions :
    (isFatal (simplify_loop_check .ast_while) = true
      ∧ isFatal (simplify_loop_check .ast_repeat) = true
      ∧ ∀ t, isFatal (simplify_loop_check t) = true →
          t = .ast_while ∨ t = .ast_repeat)
    ∧ (∀ (ε : Type) (foldE : ε → Option AConst) (wu : Int) (cond : ε)
        (body : CStmt ε) (rest : List (CStmt ε))
        (vars : List (String × VarInfo)) (c : AConst),
        foldE cond = some c →
          const_step foldE wu (CStmt.c_while cond body :: rest, vars) =
            (if const_as_bool c then
               .ok (body :: CStmt.c_while cond body :: rest, vars)
             else .ok (rest, vars)))
    ∧ (∀ (ε : Type) (foldE : ε → Option AConst) (wu : Int) (num : ε)
        (body : CStmt ε) (rest : List (CStmt ε))
        (vars : List (String × VarInfo)) (c : AConst),
        foldE num = some c →
          const_step foldE wu (CStmt.c_repeat num body :: rest, vars) =
            .ok (List.replicate (const_as_nat c.bits) body ++ rest, vars)) := by
  refine ⟨⟨rfl, rfl, ?_⟩, ?_, ?_⟩
  · intro t h
    cases t
    · exact Or.inl rfl
    · exact Or.inr rfl
    · exact absurd h (by simp [simplify_loop_check, isFatal])
    · exact absurd h (by simp [simplify_loop_check, isFatal])
    · exact absurd h (by simp [simplify_loop_check, isFatal])
  · intro ε foldE wu cond body rest vars c h
    simp only [const_step, h]
  · intro ε foldE wu num body rest vars c h
    simp only [const_step, h]

/-- C9 witness: a `while` whose condition folds to the true constant `1'b1`
prepends its body and keeps itself. -/
theorem while_repeat_only_const_functions_witness :
    (fun _ : Unit => some (AConst.mk [VState.S1] false)) () =
        some (AConst.mk [VState.S1] false)
    ∧ const_step (fun _ : Unit => some (AConst.mk [VState.S1] false)) 0
        ([CStmt.c_while () CStmt.c_other], []) =
        (if const_as_bool (AConst.mk [VState.S1] false) then
           .ok ([CStmt.c_other, CStmt.c_while () CStmt.c_other], [])
         else .ok ([], [])) :=
  ⟨rfl,
   while_repeat_only_const_functions.2.1 Unit
     (fun _ : Unit => some (AConst.mk [VState.S1] false)) 0 ()
     CStmt.c_other [] [] (AConst.mk [VState.S1] false) rfl⟩

/- ------------------------------------------------------------------ -/
/- Theorems: C2                                                       -/
/- ------------------------------------------------------------------ -/

theorem while_simplify_fix {α : Type} (p : Nat → α → α × Bool) (stage : Nat)
    (hstable : ∀ (s : Nat) (n : α), (p s n).2 = false → (p s n).1 = n) :
    ∀ (k fuel : Nat) (m : α), Quiesces p stage m k → k < fuel →
      (p stage (while_simplify p stage fuel m)).2 = false := by
  intro k
  induction k with
  | zero =>
      intro fuel m hq hf
      cases hq with
      | stop h =>
          cases fuel with
          | zero => omega
          | succ f =>
              simp only [while_simplify]
              rw [h]
              simp only [Bool.false_eq_true, if_false]
              rw [hstable stage m h]
              exact h
  | succ k ih =>
      intro fuel m hq hf
      cases hq with
      | step ht hq2 =>
          cases fuel with
          | zero => omega
          | succ f =>
              simp only [while_simplify]
              rw [ht]
              simp only [if_true]
              exact ih f (p stage m).1 hq2 (by omega)

theorem while_simplify_of_quiet {α : Type} (p : Nat → α → α × Bool)
    (stage : Nat)
    (hstable : ∀ (s : Nat) (n : α), (p s n).2 = false → (p s n).1 = n)
    (fuel : Nat) (m : α) (h : (p stage m).2 = false) :
    while_simplify p stage fuel m = m := by
  cases fuel with
  | zero => rfl
  | succ f =>
      simp only [while_simplify]
      rw [h]
      simp only [Bool.false_eq_true, if_false]
      exact hstable stage m h

/-- C2: `simplify` at stage 0 drives stage 1 to a state on which the stage-1
pass reports no change, then applies the mem2reg block (unless globally disabled
or vetoed by the module's `\nomem2reg`), then drives stage 2 to a state on which
the stage-2 pass reports no change, and returns `false` — provided the fuel
covers both quiescence counts, and given that a pass reporting no change leaves
the tree unchanged (which is how `did_something` is maintained in the code). -/
theorem simplify_stage0_contract {α : Type} (ops : DriverOps α) (fuel : Nat)
    (m : α) (k1 k2 : Nat)
    (hstable : ∀ (s : Nat) (n : α), (ops.pass s n).2 = false →
      (ops.pass s n).1 = n)
    (hq1 : Quiesces ops.pass 1 m k1) (hk1 : k1 < fuel)
    (hq2 : Quiesces ops.pass 2
        (if !ops.flag_nomem2reg &&
            !ops.mod_nomem2reg (while_simplify ops.pass 1 fuel m) then
           ops.mem2reg_lower (while_simplify ops.pass 1 fuel m)
         else while_simplify ops.pass 1 fuel m) k2)
    (hk2 : k2 < fuel) :
    (simplify_stage0 ops fuel m).2 = false
    ∧ (ops.pass 1 (while_simplify ops.pass 1 fuel m)).2 = false
    ∧ (simplify_stage0 ops fuel m).1 =
        while_simplify ops.pass 2 fuel
          (if !ops.flag_nomem2reg &&
              !ops.mod_nomem2reg (while_simplify ops.pass 1 fuel m) then
             ops.mem2reg_lower (while_simplify ops.pass 1 fuel m)
           else while_simplify ops.pass 1 fuel m)
    ∧ (ops.pass 2 (simplify_stage0 ops fuel m).1).2 = false := by
  refine ⟨rfl, ?_, rfl, ?_⟩
  · exact while_simplify_fix ops.pass 1 hstable k1 fuel m hq1 hk1
  · exact while_simplify_fix ops.pass 2 hstable k2 fuel _ hq2 hk2

/-- A trivial driver instance (an already-quiescent one-point module universe)
used to exhibit satisfiability of the driver hypotheses. -/
def trivialOps : DriverOps Nat :=
  ⟨fun _ n => (n, false), fun n => n, false, fun _ => false⟩

theorem trivialOps_stable : ∀ (s n : Nat),
    (trivialOps.pass s n).2 = false → (trivialOps.pass s n).1 = n :=
  fun _ _ _ => rfl

/-- C2 witness: the stage-0 contract at the trivial driver instance with fuel 1:
the result flag is `false` and stage 1 is quiescent at the intermediate state. -/
theorem simplify_stage0_contract_witness :
    0 < 1 ∧ (simplify_stage0 trivialOps 1 0).2 = false ∧
      (trivialOps.pass 1 (while_simplify trivialOps.pass 1 1 0)).2 = false :=
  ⟨Nat.zero_lt_one,
   (simplify_stage0_contract trivialOps 1 0 0 0 trivialOps_stable
      (Quiesces.stop rfl) Nat.zero_lt_one (Quiesces.stop rfl)
      Nat.zero_lt_one).1,
   (simplify_stage0_contract trivialOps 1 0 0 0 trivialOps_stable
      (Quiesces.stop rfl) Nat.zero_lt_one (Quiesces.stop rfl)
      Nat.zero_lt_one).2.1⟩

/- ------------------------------------------------------------------ -/
/- Theorems: C5                                                       -/
/- ------------------------------------------------------------------ -/

/-- C5: on a module on which stage-0 simplification has completed (with enough
fuel), running stage 0 again is a no-op: the first inner stage-1 and stage-2
calls already report no change, the mem2reg block changes nothing, and the
driver returns the same module with `false` — given that a pass reporting no
change leaves the tree unchanged, that a stage-2-quiescent tree is also
stage-1-quiescent (the stage-2 rewrite set contains the stage-1 set), and that
the mem2reg block is the identity on a stage-2-quiescent tree (all demoted
memories and their accesses are already gone). -/
theorem simplify_stage0_idempotent {α : Type} (ops : DriverOps α)
    (fuel fuel2 : Nat) (m : α) (k1 k2 : Nat)
    (hstable : ∀ (s : Nat) (n : α), (ops.pass s n).2 = false →
      (ops.pass s n).1 = n)
    (h21 : ∀ n : α, (ops.pass 2 n).2 = false → (ops.pass 1 n).2 = false)
    (hlower : ∀ n : α, (ops.pass 2 n).2 = false → ops.mem2reg_lower n = n)
    (hq1 : Quiesces ops.pass 1 m k1) (hk1 : k1 < fuel)
    (hq2 : Quiesces ops.pass 2
        (if !ops.flag_nomem2reg &&
            !ops.mod_nomem2reg (while_simplify ops.pass 1 fuel m) then
           ops.mem2reg_lower (while_simplify ops.pass 1 fuel m)
         else while_simplify ops.pass 1 fuel m) k2)
    (hk2 : k2 < fuel) :
    (ops.pass 1 (simplify_stage0 ops fuel m).1).2 = false
    ∧ (ops.pass 2 (simplify_stage0 ops fuel m).1).2 = false
    ∧ simplify_stage0 ops fuel2 (simplify_stage0 ops fuel m).1 =
        ((simplify_stage0 ops fuel m).1, false) := by
  have h2 : (ops.pass 2 (simplify_stage0 ops fuel m).1).2 = false :=
    while_simplify_fix ops.pass 2 hstable k2 fuel _ hq2 hk2
  have h1 : (ops.pass 1 (simplify_stage0 ops fuel m).1).2 = false :=
    h21 _ h2
  refine ⟨h1, h2, ?_⟩
  have hw1 : while_simplify ops.pass 1 fuel2 (simplify_stage0 ops fuel m).1 =
      (simplify_stage0 ops fuel m).1 :=
    while_simplify_of_quiet ops.pass 1 hstable fuel2 _ h1
  have hgate : (if !ops.flag_nomem2reg &&
        !ops.mod_nomem2reg (simplify_stage0 ops fuel m).1 then
      ops.mem2reg_lower (simplify_stage0 ops fuel m).1
    else (simplify_stage0 ops fuel m).1) = (simplify_stage0 ops fuel m).1 := by
    split
    · exact hlower _ h2
    · rfl
  have hw2 : while_simplify ops.pass 2 fuel2 (simplify_stage0 ops fuel m).1 =
      (simplify_stage0 ops fuel m).1 :=
    while_simplify_of_quiet ops.pass 2 hstable fuel2 _ h2
  calc simplify_stage0 ops fuel2 (simplify_stage0 ops fuel m).1
      = (while_simplify ops.pass 2 fuel2
          (if !ops.flag_nomem2reg &&
              !ops.mod_nomem2reg
                (while_simplify ops.pass 1 fuel2
                  (simplify_stage0 ops fuel m).1) then
             ops.mem2reg_lower
               (while_simplify ops.pass 1 fuel2 (simplify_stage0 ops fuel m).1)
           else while_simplify ops.pass 1 fuel2
             (simplify_stage0 ops fuel m).1), false) := rfl
    _ = ((simplify_stage0 ops fuel m).1, false) := by
        rw [hw1, hgate, hw2]

/-- C5 witness: idempotence of stage 0 at the trivial driver instance. -/
theorem simplify_stage0_idempotent_witness :
    simplify_stage0 trivialOps 1 (simplify_stage0 trivialOps 1 0).1 =
      ((simplify_stage0 trivialOps 1 0).1, false) :=
  (simplify_stage0_idempotent trivialOps 1 1 0 0 0 trivialOps_stable
     (fun _ _ => rfl) (fun _ _ => rfl) (Quiesces.stop rfl) Nat.zero_lt_one
     (Quiesces.stop rfl) Nat.zero_lt_one).2.2

end YosysAst
